import Mathlib

/-!
Verification of the `Palette` command-palette engine
(`commandPalette.sys.mjs`, class `Palette`).

Shallow embedding conventions:
* JS strings are modelled as `List Char` (`Str`).  `String.prototype.toLowerCase`
  is modelled character-wise by `Char.toLower`, and `String.prototype.trim` by
  dropping whitespace characters on both ends.
* `String.prototype.localeCompare` (used only as the tie-break comparator in
  `_filterCommands`) is modelled as case-sensitive lexicographic comparison by
  code point, which is the minimal ECMA-262-conforming behaviour of
  `localeCompare` in a host without locale data.
* JS `Array.prototype.sort` (a stable sort since ES2019) is modelled by
  a stable insertion sort (`List.insertionSort`).
* JS numbers used as indices are modelled as `Int`; the JS `%` operator
  (truncated remainder, sign of the dividend) is `Int.tmod`.
* DOM manipulation (`_renderResults`, `_buildUI`, scrolling, focus) is pure
  output and carries no engine state; it is omitted.  The engine state that the
  claims are about (`commands`, `filtered`, `selectedIndex`, input value,
  `ranOnce`, dialog-open flag) is `PaletteState`.
-/

namespace Palette

/-- JS strings, modelled as lists of characters. -/
abbrev Str := List Char

/-- Model of `String.prototype.toLowerCase`, modelled character-wise. -/
def toLowerStr (s : Str) : Str := s.map Char.toLower

/-- Model of `String.prototype.trim`: drop leading and trailing whitespace. -/
def trim (s : Str) : Str :=
  ((s.dropWhile Char.isWhitespace).reverse.dropWhile Char.isWhitespace).reverse

/-- Model of `a.startsWith(b)` on the underlying character lists: `isPrefixOfB p s`
is true iff `p` is a prefix of `s`. -/
def isPrefixOfB : Str → Str → Bool
  | [], _ => true
  | _ :: _, [] => false
  | a :: as, b :: bs => a == b && isPrefixOfB as bs

/-- Model of `t.includes(q)`: `q` occurs contiguously somewhere in `t`. -/
def containsSub (t q : Str) : Bool :=
  match t with
  | [] => isPrefixOfB q []
  | _ :: ts => isPrefixOfB q t || containsSub ts q

/-- Model of `t.indexOf(q)`: index of the first contiguous occurrence of `q` in `t`,
`none` when absent (JS returns `-1`). -/
def indexOfSub (t q : Str) : Option Nat :=
  match t with
  | [] => if isPrefixOfB q [] then some 0 else none
  | _ :: ts => if isPrefixOfB q t then some 0 else (indexOfSub ts q).map (· + 1)

/-- Model of `Palette._fuzzyMatch(query, text)`:

```
if (query.length === 0) return true
let qi = 0, ti = 0
while (qi < query.length && ti < text.length) {
    if (query[qi] === text[ti]) qi++
    ti++
}
return qi === query.length
```

The two-cursor loop is rendered as structural recursion: each step consumes
one text character, and also one query character exactly when they agree.
-/
def fuzzyMatch : Str → Str → Bool
  | [], _ => true
  | _ :: _, [] => false
  | q :: qs, t :: ts => if q = t then fuzzyMatch qs ts else fuzzyMatch (q :: qs) ts

/-- A palette entry (`Palette.Entry`).  `id` is `string|false` in the source
(`false` = anonymous), modelled as `Option Str`; `title` is required; the
`display*` fields override display text but never filtering.  The `run`
callback is opaque JS behaviour and is modelled separately (see `RunOutcome`). -/
structure Entry where
  id : Option Str := none
  title : Str
  subtitle : Option Str := none
  displayTitle : Option Str := none
  displaySubtitle : Option Str := none
deriving DecidableEq

/-- Population triggers (`opts.populateBehavior`). -/
inductive PopulateTrigger where
  | OnInit
  | OnFirstShow
  | OnShow
deriving DecidableEq

/-- The recognized option fields that influence engine state (defaults as in
the constructor).  Pure-presentation options (`placeholder`, `maxVisible`,
`width`, `title`) carry no engine state and are omitted.
`initialSortFunc` is a JS comparator returning a number. -/
structure Options where
  minQueryLength : Nat := 0
  fuzzy : Bool := true
  highlight : Bool := true
  populateBehavior : List PopulateTrigger := [.OnFirstShow]
  hostAllowList : Option (List Str) := none
  initialSortFunc : Option (Entry → Entry → Int) := none

/-- Engine state of a `Palette` instance: `commands`, `filtered`,
`selectedIndex` (a JS number, hence `Int`), the input element's value
(`query`), `ranOnce`, and whether the dialog is open (`visible`). -/
structure PaletteState where
  commands : List Entry := []
  filtered : List Entry := []
  selectedIndex : Int := 0
  query : Str := []
  ranOnce : Bool := false
  visible : Bool := false
deriving DecidableEq

/-- Case-sensitive lexicographic comparison by code point:
`lexLE a b` iff `a.localeCompare(b) <= 0` under the locale-free model of
`localeCompare` (see the header). -/
def lexLE : Str → Str → Bool
  | [], _ => true
  | _ :: _, [] => false
  | a :: as, b :: bs => if a = b then lexLE as bs else decide (a < b)

/-- The per-entry score computed inside `Palette._filterCommands` for an
already-lowercased `query`:

```
const title = (cmd.title || '').toLowerCase()
const subtitle = (cmd.subtitle || '').toLowerCase()
let score = 0
if (title === query) score += 100
if (title.startsWith(query)) score += 75
if (title.includes(query)) score += 50
if (subtitle.includes(query)) score += 30
if (this.options.fuzzy && this._fuzzyMatch(query, title)) score += 10
```
-/
def scoreOf (fuzzy : Bool) (query : Str) (cmd : Entry) : Nat :=
  let title := toLowerStr cmd.title
  let subtitle := toLowerStr (cmd.subtitle.getD [])
  (if title = query then 100 else 0)
  + (if isPrefixOfB query title then 75 else 0)
  + (if containsSub title query then 50 else 0)
  + (if containsSub subtitle query then 30 else 0)
  + (if fuzzy && fuzzyMatch query title then 10 else 0)

/-- The sort comparator `(a, b) => b.score - a.score || a.cmd.title.localeCompare(b.cmd.title)`
as a boolean "less-or-equal" on scored pairs: `a` may precede `b` iff the
comparator is `<= 0`, i.e. `a` scores higher, or scores tie and `a.title`
is lexicographically `<=` `b.title`. -/
def scoredLE (x y : Entry × Nat) : Bool :=
  decide (y.2 < x.2) || (x.2 == y.2 && lexLE x.1.title y.1.title)

/-- JS `Array.prototype.sort(comparator)` is stable (ES2019); for a
consistent comparator the stable-sorted permutation is unique, so it is
modelled by a stable insertion sort keeping `a` before `b` whenever the
boolean "may precede" test `le a b` holds. -/
def stableSortB (le : α → α → Bool) (l : List α) : List α :=
  l.insertionSort fun a b => le a b = true

/-- Model of `Palette._filterCommands(q)` for a trimmed query `q`:
empty query returns `commands.slice()`; otherwise score every command,
drop scores `<= 0`, stable-sort by the comparator, and project the entries. -/
def filterCommands (opts : Options) (commands : List Entry) (q : Str) : List Entry :=
  if q = [] then commands
  else
    let query := toLowerStr q
    let scored := (commands.map fun cmd => (cmd, scoreOf opts.fuzzy query cmd)).filter
      fun x => decide (0 < x.2)
    (stableSortB scoredLE scored).map fun s => s.1

/-- Model of `Palette._onQueryChange()`: trim the input value, recompute `filtered`
(scored filter when the trimmed query reaches `minQueryLength`, the whole
command list otherwise) and re-clamp `selectedIndex`:

```
this.selectedIndex = Math.min(this.selectedIndex, Math.max(0, results.length - 1))
if (this.selectedIndex < 0) this.selectedIndex = 0
```
-/
def onQueryChange (opts : Options) (st : PaletteState) : PaletteState :=
  let q := trim st.query
  let results :=
    if opts.minQueryLength ≤ q.length then filterCommands opts st.commands q
    else st.commands
  let si := min st.selectedIndex (max 0 ((results.length : Int) - 1))
  { st with filtered := results, selectedIndex := if si < 0 then 0 else si }

/-- Model of `Palette._setSelectedIndex(i)`:
`this.selectedIndex = Math.max(0, Math.min(i, this.filtered.length - 1))`
(the accompanying DOM marker/scroll updates carry no engine state). -/
def setSelectedIndex (st : PaletteState) (i : Int) : PaletteState :=
  { st with selectedIndex := max 0 (min i ((st.filtered.length : Int) - 1)) }

/-- Model of `Palette._moveSelection(delta)`: no-op on an empty `filtered`; otherwise
`(this.selectedIndex + delta + this.filtered.length) % this.filtered.length`
(JS `%` = truncated remainder = `Int.tmod`) fed to `_setSelectedIndex`. -/
def moveSelection (st : PaletteState) (delta : Int) : PaletteState :=
  if st.filtered.length = 0 then st
  else
    setSelectedIndex st
      (Int.tmod (st.selectedIndex + delta + st.filtered.length) st.filtered.length)

/-- Model of `this.commands.sort(this.options.initialSortFunc)`: the configured
comparator `compareFn` keeps `a` before `b` when `compareFn(a,b) <= 0`. -/
def jsSort (f : Entry → Entry → Int) (l : List Entry) : List Entry :=
  stableSortB (fun a b => decide (f a b ≤ 0)) l

/-- Model of `Palette.setCommands(list)` after the `Array.isArray` coercion:

```
this.commands = Array.isArray(list) ? list.slice() : []
if (this.options.initialSortFunc && typeof this.options.initialSortFunc === 'function') {
    this.filtered = this.commands = this.commands.sort(this.options.initialSortFunc)
    this._renderResults('')
}
this._onQueryChange()
```
-/
def setCommandsList (opts : Options) (st : PaletteState) (list : List Entry) : PaletteState :=
  let st1 := { st with commands := list }
  let st2 :=
    match opts.initialSortFunc with
    | some f =>
      let sorted := jsSort f st1.commands
      { st1 with commands := sorted, filtered := sorted }
    | none => st1
  onQueryChange opts st2

/-- A JS value passed to the public `setCommands`; only arrays of entries are
accepted, everything else hits the `: []` arm of `Array.isArray`. -/
inductive JSVal where
  | jsNull
  | jsUndefined
  | jsString (s : Str)
  | jsNumber (n : Int)
  | jsObject
  | jsArray (l : List Entry)
deriving DecidableEq

/-- Model of `Array.isArray`. -/
def JSVal.isArray : JSVal → Bool
  | .jsArray _ => true
  | _ => false

/-- Public `Palette.setCommands(list)` on an arbitrary JS value. -/
def setCommands (opts : Options) (st : PaletteState) (v : JSVal) : PaletteState :=
  setCommandsList opts st (match v with | .jsArray l => l | _ => [])

/-- The duplicate-id lookup at the top of `Palette.add`:
`cmd.id` must be truthy (a non-empty string) for the `findIndex` to run, and
the match is strict equality of ids. -/
def dupIdx (st : PaletteState) (cmd : Entry) : Option Nat :=
  match cmd.id with
  | some s =>
    if s = [] then none
    else st.commands.findIdx? fun obj => decide (obj.id = some s)
  | none => none

/-- Model of `Palette.add(cmd)`: replace in place at the first entry with the same
(truthy) id, else append; then `setCommands(this.commands)`. -/
def add (opts : Options) (st : PaletteState) (cmd : Entry) : PaletteState :=
  let cmds :=
    match dupIdx st cmd with
    | some i => st.commands.set i cmd
    | none => st.commands ++ [cmd]
  setCommandsList opts st cmds

/-- The identifier accepted by `Palette.remove`: a numeric index, an id
string, or an entry reference (whose `id` is consulted). -/
inductive Ident where
  | byIndex (idx : Int)
  | byId (s : Str)
  | byEntry (e : Entry)

/-- The id-based arm of `Palette.remove`: find the first entry with this id,
splice it out and re-filter; unmatched ids fall through unchanged. -/
def removeById (opts : Options) (st : PaletteState) (s : Str) : PaletteState :=
  match st.commands.findIdx? fun obj => decide (obj.id = some s) with
  | some i => setCommandsList opts st (st.commands.eraseIdx i)
  | none => st

/-- Model of `Palette.remove(identifier)`:

```
if (typeof identifier === 'number') {
    const idx = identifier
    if (idx < 0 || idx >= this.commands.length) return
    this.commands.splice(idx, 1); this.setCommands(this.commands); return
}
const id = typeof identifier === 'string' ? identifier : identifier?.id
if (!id) return
const index = this.commands.findIndex((obj) => obj.id === id)
if (index !== -1) { this.commands.splice(index, 1); this.setCommands(this.commands) }
```

A falsy id (absent, or the empty string) bails out before the lookup. -/
def remove (opts : Options) (st : PaletteState) (ident : Ident) : PaletteState :=
  match ident with
  | .byIndex idx =>
    if idx < 0 ∨ (st.commands.length : Int) ≤ idx then st
    else setCommandsList opts st (st.commands.eraseIdx idx.toNat)
  | .byId s => if s = [] then st else removeById opts st s
  | .byEntry e =>
    match e.id with
    | some s => if s = [] then st else removeById opts st s
    | none => st

/-- The escape table of `Palette._escapeHtml`:
`{ '&': '&amp;', '<': '&lt;', '>': '&gt;', '"': '&quot;', "'": '&#39;' }`,
applied character-wise (the regex `/[&<>"']/g` is global and per-character). -/
def escChar (c : Char) : Str :=
  if c = '&' then "&amp;".toList
  else if c = '<' then "&lt;".toList
  else if c = '>' then "&gt;".toList
  else if c = '"' then "&quot;".toList
  else if c = '\'' then "&#39;".toList
  else [c]

/-- Model of `Palette._escapeHtml(s)`. -/
def escapeHtml (s : Str) : Str := s.flatMap escChar

/-- The opening highlight marker emitted by `Palette._highlight`. -/
def openTag : Str := "<span class=\"cp-highlight\">".toList

/-- The closing highlight marker. -/
def closeTag : Str := "</span>".toList

/-- The fuzzy-fallback loop at the bottom of `Palette._highlight`: walk the
text once, wrapping each character that matches the next pending query
character (case-insensitively) in markers, escaping every piece:

```
let out = ''; let qi = 0
for (const char of text) {
    if (qi < q.length && char.toLowerCase() === q[qi]) {
        out += `<span class="cp-highlight">${this._escapeHtml(char)}</span>`; qi++
    } else { out += this._escapeHtml(char) }
}
```
-/
def fuzzyHighlight : Str → Str → Str
  | _, [] => []
  | [], c :: rest => escChar c ++ fuzzyHighlight [] rest
  | q0 :: qs, c :: rest =>
    if c.toLower = q0 then openTag ++ escChar c ++ closeTag ++ fuzzyHighlight qs rest
    else escChar c ++ fuzzyHighlight (q0 :: qs) rest

/-- Model of `Palette._highlight(text, query)`: escaped text when highlighting is off
or the (trimmed) query is empty; otherwise wrap the first case-insensitive
substring occurrence, escaping before/match/after independently; otherwise
fall back to the fuzzy walk. -/
def highlight (opts : Options) (text query : Str) : Str :=
  if opts.highlight = false then escapeHtml text
  else if query = [] then escapeHtml text
  else
    let q := toLowerStr (trim query)
    if q = [] then escapeHtml text
    else
      let lowerText := toLowerStr text
      match indexOfSub lowerText q with
      | some pos =>
        escapeHtml (text.take pos) ++ openTag
          ++ escapeHtml ((text.drop pos).take q.length) ++ closeTag
          ++ escapeHtml (text.drop (pos + q.length))
      | none => fuzzyHighlight q text

/-- Remove every highlight marker from an output of `_highlight`, scanning
left to right and skipping each marker occurrence. -/
def stripTags : Str → Str
  | [] => []
  | c :: rest =>
    if isPrefixOfB openTag (c :: rest) then stripTags ((c :: rest).drop openTag.length)
    else if isPrefixOfB closeTag (c :: rest) then stripTags ((c :: rest).drop closeTag.length)
    else c :: stripTags rest
termination_by s => s.length
decreasing_by
  · have h1 : openTag.length = 27 := by decide
    simp [List.length_drop, h1]
    omega
  · have h2 : closeTag.length = 7 := by decide
    simp [List.length_drop, h2]
    omega
  · simp

/-- The outcome of one invocation of the entry source (`populateFunc`): the
wrapped function always yields a promise, which either fulfils with an entry
list or rejects with an (opaque) error. -/
inductive PopOutcome where
  | ok (entries : List Entry)
  | err (e : Nat)
deriving DecidableEq

/-- What one call to `Palette.show(doc, prefill)` produces: the state the
instance is left in, whether `dialog.showModal()` was reached, and the error
with which the promise returned by `show` rejects (if any) — `show` contains
no try/catch, so a rejected `await this.populateFunc(this)` rejects `show`
itself. -/
structure ShowResult where
  state : PaletteState
  opened : Bool
  propagated : Option Nat
deriving DecidableEq

/-- The host-allow-list gate at the top of `show`: when `hostAllowList` is
configured and the current host is not on it, `show` returns early. -/
def hostBlocked (opts : Options) (currentHost : Str) : Bool :=
  match opts.hostAllowList with
  | some l => !(decide (currentHost ∈ l))
  | none => false

/-- The tail of `show` after population: `dialog.showModal()`,
`input.value = prefill`, `_onQueryChange()` (focus and scroll suppression are
presentation only). -/
def showFinish (opts : Options) (st : PaletteState) (prefill : Str) : ShowResult :=
  ⟨onQueryChange opts { st with visible := true, query := prefill }, true, none⟩

/-- The `OnShow` population step of `show` (`o2` is the outcome of that call
to the populate function, when it is made). -/
def showStep2 (opts : Options) (st : PaletteState) (o2 : PopOutcome) (prefill : Str) :
    ShowResult :=
  if PopulateTrigger.OnShow ∈ opts.populateBehavior then
    match o2 with
    | .err e => ⟨st, false, some e⟩
    | .ok l => showFinish opts (setCommandsList opts st l) prefill
  else showFinish opts st prefill

/-- Model of `Palette.show(doc, prefill)`; `bodyPresent` models `doc.body`,
`currentHost` the active tab's host, and `o1`/`o2` the outcomes of the
`OnFirstShow` and `OnShow` populate calls respectively:

```
if (!doc.body) return
if (this.options.hostAllowList) { ... if not included, return }
if (!this.ranOnce) {
    this.ranOnce = true
    if (this.options.populateBehavior.includes('OnFirstShow')) {
        this.setCommands(await this.populateFunc(this))
    }
}
if (this.options.populateBehavior.includes('OnShow')) {
    this.setCommands(await this.populateFunc(this))
}
this.dialog.showModal(); this.input.value = prefill; this._onQueryChange(); ...
```

`this.ranOnce = true` happens before the first `await`, so it sticks even
when that populate call rejects. -/
def showPalette (opts : Options) (st : PaletteState) (bodyPresent : Bool) (currentHost : Str)
    (o1 o2 : PopOutcome) (prefill : Str) : ShowResult :=
  if bodyPresent = false then ⟨st, false, none⟩
  else if hostBlocked opts currentHost then ⟨st, false, none⟩
  else if st.ranOnce = false then
    let st1 := { st with ranOnce := true }
    if PopulateTrigger.OnFirstShow ∈ opts.populateBehavior then
      match o1 with
      | .err e => ⟨st1, false, some e⟩
      | .ok l => showStep2 opts (setCommandsList opts st1 l) o2 prefill
    else showStep2 opts st1 o2 prefill
  else showStep2 opts st o2 prefill

/-- What `Palette.init` leaves behind: the state, and the error of the
unawaited `(async () => { this.setCommands(await this.populateFunc(this)) })()`
IIFE when its promise rejects — nothing catches it. -/
structure InitResult where
  state : PaletteState
  unhandled : Option Nat
deriving DecidableEq

/-- Model of `Palette.init(_win)` (the `OnAfterInitCallback` hook is collaborator
code and carries no engine state). -/
def init (opts : Options) (st : PaletteState) (o : PopOutcome) : InitResult :=
  if PopulateTrigger.OnInit ∈ opts.populateBehavior then
    match o with
    | .err e => ⟨st, some e⟩
    | .ok l => ⟨setCommandsList opts st l, none⟩
  else ⟨st, none⟩

/-- The behaviour of `entry.run` as observed by `Palette._runCommand`:
absent/not a function, a synchronous throw, a plain return, or a thenable
that later resolves or rejects. -/
inductive RunOutcome where
  | notFun
  | throws (e : Nat)
  | retUnit
  | thenableResolves
  | thenableRejects (e : Nat)
deriving DecidableEq

/-- Observable events of `Palette._runCommand`, in program order. -/
inductive Ev where
  | hid
  | invoked
  | caughtSync (e : Nat)
  | caughtAsync (e : Nat)
  | warnedNoRun
deriving DecidableEq

/-- The `try` body of `Palette._runCommand`: hide the palette, invoke the
action, attach a `.catch` logger to a thenable result, or warn when there is
no runnable action.  A synchronous throw escapes the body as `Except.error`
carrying the events already emitted. -/
def runCommandBody : RunOutcome → Except (Nat × List Ev) (List Ev)
  | .notFun => .ok [.warnedNoRun]
  | .throws e => .error (e, [.hid, .invoked])
  | .retUnit => .ok [.hid, .invoked]
  | .thenableResolves => .ok [.hid, .invoked]
  | .thenableRejects e => .ok [.hid, .invoked, .caughtAsync e]

/-- Model of `Palette._runCommand(entry)`: the surrounding
`catch (err) { console.error('Command execution failed', err) }` turns a
synchronous throw into a logged event, so the function always returns. -/
def runCommand (o : RunOutcome) : List Ev :=
  match runCommandBody o with
  | .ok evs => evs
  | .error (e, evs) => evs ++ [.caughtSync e]

/-- The `selectedIndex` invariant claimed by the spec: the cursor lies in
`[0, len(filtered)-1]`, or is `0` when `filtered` is empty. -/
def SelInv (st : PaletteState) : Prop :=
  (st.filtered.length = 0 → st.selectedIndex = 0)
  ∧ (st.filtered.length ≠ 0 →
      0 ≤ st.selectedIndex ∧ st.selectedIndex < (st.filtered.length : Int))

theorem fuzzyMatch_of_sublist {q t : Str} (h : q.Sublist t) : fuzzyMatch q t = true := by
  induction t generalizing q with
  | nil =>
    have : q = [] := List.sublist_nil.mp h
    subst this; rfl
  | cons c ts ih =>
    cases q with
    | nil => rfl
    | cons x xs =>
      cases h with
      | cons _ h' =>
        by_cases hxc : x = c
        · subst hxc
          rw [fuzzyMatch, if_pos rfl]
          exact ih (((List.sublist_cons_self x xs).trans h'))
        · rw [fuzzyMatch, if_neg hxc]
          exact ih h'
      | cons₂ _ h' =>
        rw [fuzzyMatch, if_pos rfl]
        exact ih h'

theorem sublist_of_fuzzyMatch {q t : Str} (h : fuzzyMatch q t = true) : q.Sublist t := by
  induction t generalizing q with
  | nil =>
    cases q with
    | nil => exact List.Sublist.refl _
    | cons x xs => simp [fuzzyMatch] at h
  | cons c ts ih =>
    cases q with
    | nil => exact List.nil_sublist _
    | cons x xs =>
      by_cases hxc : x = c
      · subst hxc
        rw [fuzzyMatch, if_pos rfl] at h
        exact List.Sublist.cons₂ _ (ih h)
      · rw [fuzzyMatch, if_neg hxc] at h
        exact List.Sublist.cons c (ih h)

/-- C2 — `Palette._fuzzyMatch` returns true iff every character of the
query appears in the text in order (not necessarily contiguously), i.e. iff
the query is a subsequence (`List.Sublist`) of the text; in particular the
empty query matches every text.  (The engine only calls it on lowercased
strings, but the equivalence holds for all strings.) -/
theorem fuzzyMatch_iff_sublist (q t : Str) : fuzzyMatch q t = true ↔ q.Sublist t :=
  ⟨sublist_of_fuzzyMatch, fuzzyMatch_of_sublist⟩

theorem onQueryChange_commands (opts : Options) (st : PaletteState) :
    (onQueryChange opts st).commands = st.commands := rfl

/-- The clamp performed at the end of `_onQueryChange` establishes the
selection invariant for a result list of length `n`, whatever the previous
index was. -/
theorem clampQuery_inv (sel : Int) (n : Nat) :
    (n = 0 →
      (if min sel (max 0 ((n : Int) - 1)) < 0 then 0
       else min sel (max 0 ((n : Int) - 1))) = 0)
    ∧ (n ≠ 0 →
      0 ≤ (if min sel (max 0 ((n : Int) - 1)) < 0 then 0
           else min sel (max 0 ((n : Int) - 1)))
      ∧ (if min sel (max 0 ((n : Int) - 1)) < 0 then 0
         else min sel (max 0 ((n : Int) - 1))) < (n : Int)) := by
  constructor
  · intro h
    subst h
    split <;> omega
  · intro h
    split <;> constructor <;> omega

theorem selInv_onQueryChange (opts : Options) (st : PaletteState) :
    SelInv (onQueryChange opts st) :=
  clampQuery_inv st.selectedIndex _

theorem selInv_setSelectedIndex (st : PaletteState) (i : Int) :
    SelInv (setSelectedIndex st i) := by
  have h1 : min i ((st.filtered.length : Int) - 1) ≤ (st.filtered.length : Int) - 1 :=
    min_le_right _ _
  constructor
  · intro h
    have h0 : st.filtered.length = 0 := h
    show max 0 (min i ((st.filtered.length : Int) - 1)) = 0
    omega
  · intro h
    have h2 : st.filtered.length ≠ 0 := h
    refine ⟨le_max_left 0 _, ?_⟩
    show max 0 (min i ((st.filtered.length : Int) - 1)) < (st.filtered.length : Int)
    omega

theorem selInv_setCommandsList (opts : Options) (st : PaletteState) (l : List Entry) :
    SelInv (setCommandsList opts st l) :=
  selInv_onQueryChange opts _

theorem selInv_moveSelection (st : PaletteState) (d : Int) (h : SelInv st) :
    SelInv (moveSelection st d) := by
  unfold moveSelection
  split
  · exact h
  · exact selInv_setSelectedIndex st _

theorem selInv_add (opts : Options) (st : PaletteState) (cmd : Entry) :
    SelInv (add opts st cmd) :=
  selInv_setCommandsList opts st _

theorem selInv_remove (opts : Options) (st : PaletteState) (ident : Ident)
    (h : SelInv st) : SelInv (remove opts st ident) := by
  unfold remove
  cases ident with
  | byIndex idx =>
    dsimp only
    split
    · exact h
    · exact selInv_setCommandsList opts st _
  | byId s =>
    dsimp only
    split
    · exact h
    · unfold removeById
      split
      · exact selInv_setCommandsList opts st _
      · exact h
  | byEntry e =>
    dsimp only
    cases he : e.id with
    | some s =>
      dsimp only
      split
      · exact h
      · unfold removeById
        split
        · exact selInv_setCommandsList opts st _
        · exact h
    | none => exact h

theorem selInv_setCommands (opts : Options) (st : PaletteState) (v : JSVal) :
    SelInv (setCommands opts st v) :=
  selInv_setCommandsList opts st _

/-- C4 — after every operation that can change `filtered` or the
selection (query change, `_setSelectedIndex` with any integer argument,
`_moveSelection`, `add`, `remove`, `setCommands`), `selectedIndex` lies in
`[0, len(filtered)-1]`, or is `0` when `filtered` is empty (`SelInv`).
The starting state is assumed to satisfy the invariant (it holds at
construction: both lists empty, index 0), which only the two no-op branches
(`moveSelection` on empty `filtered`, `remove` of an unmatched identifier)
even consult. -/
theorem selectedIndex_invariant (opts : Options) (st : PaletteState) (h : SelInv st) :
    SelInv (onQueryChange opts st)
    ∧ (∀ i, SelInv (setSelectedIndex st i))
    ∧ (∀ d, SelInv (moveSelection st d))
    ∧ (∀ cmd, SelInv (add opts st cmd))
    ∧ (∀ ident, SelInv (remove opts st ident))
    ∧ (∀ v, SelInv (setCommands opts st v)) :=
  ⟨selInv_onQueryChange opts st, fun i => selInv_setSelectedIndex st i,
    fun d => selInv_moveSelection st d h, fun cmd => selInv_add opts st cmd,
    fun ident => selInv_remove opts st ident h, fun v => selInv_setCommands opts st v⟩

/-- Witness for C4 at a concrete state and concrete arguments. -/
theorem selectedIndex_invariant_witness :
    SelInv (onQueryChange {} { commands := [{ title := ['a'] }], query := ['a'] })
    ∧ SelInv (setSelectedIndex { filtered := [{ title := ['a'] }] } 5)
    ∧ SelInv (moveSelection { filtered := [{ title := ['a'] }], selectedIndex := 0 } (-1))
    ∧ SelInv (add {} {} { title := ['b'] })
    ∧ SelInv (remove {} {} (.byIndex 3))
    ∧ SelInv (setCommands {} {} .jsNull) := by
  have h1 : SelInv { commands := [{ title := ['a'] }], query := ['a'] } :=
    ⟨fun _ => rfl, fun hc => absurd rfl hc⟩
  have h2 : SelInv ({ filtered := [{ title := ['a'] }] } : PaletteState) :=
    ⟨fun hc => by simp at hc, fun _ => by constructor <;> decide⟩
  have h3 : SelInv ({} : PaletteState) := ⟨fun _ => rfl, fun hc => absurd rfl hc⟩
  exact ⟨(selectedIndex_invariant {} _ h1).1,
    (selectedIndex_invariant {} _ h2).2.1 5,
    (selectedIndex_invariant {} _ h2).2.2.1 (-1),
    (selectedIndex_invariant {} _ h3).2.2.2.1 { title := ['b'] },
    (selectedIndex_invariant {} _ h3).2.2.2.2.1 (.byIndex 3),
    (selectedIndex_invariant {} _ h3).2.2.2.2.2 .jsNull⟩

/-- C3, counterexample — with two filtered entries and `selectedIndex = 0`,
`moveSelection(-5)` leaves the index at `0`, while the claimed formula
`(selectedIndex + delta + len) mod len` gives `(0 - 5 + 2) mod 2 = 1`:
JS `%` is a truncated remainder (`-3 % 2 = -1`), which `_setSelectedIndex`
then clamps to `0`. -/
theorem moveSelection_mod_counterexample :
    (moveSelection { filtered := [{ title := ['a'] }, { title := ['b'] }], selectedIndex := 0 } (-5)).selectedIndex
      ≠ ((0 : Int) + (-5) + 2) % 2 := by decide

/-- C3, amended — `moveSelection(delta)` is a no-op when `filtered` is
empty; otherwise it sets the selection to the clamp of the truncated
remainder `(selectedIndex + delta + len) tmod len`, which agrees with the
claimed `(selectedIndex + delta + len) mod len` whenever
`selectedIndex + delta + len >= 0` (so wrapping by one position works in both
directions at both ends); for more negative deltas the truncated remainder
is negative and is clamped to `0` instead. -/
theorem moveSelection_spec (st : PaletteState) (delta : Int) :
    (st.filtered.length = 0 → moveSelection st delta = st)
    ∧ (st.filtered.length ≠ 0 → 0 ≤ st.selectedIndex + delta + st.filtered.length →
        (moveSelection st delta).selectedIndex
          = (st.selectedIndex + delta + (st.filtered.length : Int))
              % (st.filtered.length : Int))
    ∧ (st.filtered.length ≠ 0 →
        (moveSelection st delta).selectedIndex
          = max 0 (min ((st.selectedIndex + delta + st.filtered.length).tmod
              st.filtered.length) ((st.filtered.length : Int) - 1))) := by
  refine ⟨fun h => ?_, fun h hnn => ?_, fun h => ?_⟩
  · unfold moveSelection
    rw [if_pos h]
  · have hlen : (0 : Int) < st.filtered.length := by omega
    unfold moveSelection setSelectedIndex
    rw [if_neg h]
    dsimp only
    rw [Int.tmod_eq_emod hnn (by omega)]
    have h1 : 0 ≤ (st.selectedIndex + delta + st.filtered.length)
        % (st.filtered.length : Int) := Int.emod_nonneg _ (by omega)
    have h2 : (st.selectedIndex + delta + st.filtered.length)
        % (st.filtered.length : Int) < st.filtered.length :=
      Int.emod_lt_of_pos _ hlen
    omega
  · unfold moveSelection setSelectedIndex
    rw [if_neg h]

/-- Witness for C3 (amended) at a two-entry state: `moveSelection(-1)` from
index `0` wraps to the last index, and `moveSelection(1)` from the last
index wraps to `0`. -/
theorem moveSelection_spec_witness :
    (moveSelection { filtered := [{ title := ['a'] }, { title := ['b'] }], selectedIndex := 0 } (-1)).selectedIndex = ((0 : Int) + (-1) + 2) % 2
    ∧ (moveSelection { filtered := [{ title := ['a'] }, { title := ['b'] }], selectedIndex := 1 } 1).selectedIndex = ((1 : Int) + 1 + 2) % 2 :=
  ⟨(moveSelection_spec { filtered := [{ title := ['a'] }, { title := ['b'] }], selectedIndex := 0 } (-1)).2.1 (by decide) (by decide),
    (moveSelection_spec { filtered := [{ title := ['a'] }, { title := ['b'] }], selectedIndex := 1 } 1).2.1 (by decide) (by decide)⟩

/-- C9 — `Palette._runCommand`: whenever the entry has a runnable action
the palette is hidden strictly before the action is invoked; a synchronous
throw is caught and logged (the function still returns a trace, nothing
propagates); a rejecting thenable result is caught and logged
asynchronously; an entry without a runnable action only produces a warning
(no hide, no invocation — a no-op). -/
theorem runCommand_spec :
    (∀ o : RunOutcome, o ≠ .notFun → ∃ rest, runCommand o = .hid :: .invoked :: rest)
    ∧ (∀ e, runCommand (.throws e) = [.hid, .invoked, .caughtSync e])
    ∧ (∀ e, runCommand (.thenableRejects e) = [.hid, .invoked, .caughtAsync e])
    ∧ runCommand .notFun = [.warnedNoRun] := by
  refine ⟨?_, fun e => rfl, fun e => rfl, rfl⟩
  intro o ho
  cases o with
  | notFun => exact absurd rfl ho
  | throws e => exact ⟨[.caughtSync e], rfl⟩
  | retUnit => exact ⟨[], rfl⟩
  | thenableResolves => exact ⟨[], rfl⟩
  | thenableRejects e => exact ⟨[.caughtAsync e], rfl⟩

/-- Witness for C9 at a concrete outcome. -/
theorem runCommand_spec_witness :
    ∃ rest, runCommand .retUnit = .hid :: .invoked :: rest :=
  runCommand_spec.1 .retUnit (by decide)

theorem setCommandsList_commands_of_none (opts : Options) (st : PaletteState)
    (l : List Entry) (hsort : opts.initialSortFunc = none) :
    (setCommandsList opts st l).commands = l := by
  unfold setCommandsList
  rw [hsort]
  rfl

theorem setCommandsList_commands_nil (opts : Options) (st : PaletteState) :
    (setCommandsList opts st []).commands = [] := by
  unfold setCommandsList
  cases opts.initialSortFunc with
  | none => rfl
  | some f => rfl

/-- C10 — `Palette.setCommands(list)` never throws: a non-array argument
(null, undefined, a string, a number, a plain object) results in `commands`
being the empty list (for any configuration, since sorting an empty list is
empty); an array argument is stored by value (`list.slice()`), so with no
`initialSortFunc` configured `commands` equals exactly the elements the
caller's array held at call time, independent of later mutation. -/
theorem setCommands_spec (opts : Options) (st : PaletteState) :
    (∀ v : JSVal, v.isArray = false → (setCommands opts st v).commands = [])
    ∧ (opts.initialSortFunc = none →
        ∀ l, (setCommands opts st (.jsArray l)).commands = l) := by
  constructor
  · intro v hv
    cases v with
    | jsArray l => simp [JSVal.isArray] at hv
    | jsNull => exact setCommandsList_commands_nil opts st
    | jsUndefined => exact setCommandsList_commands_nil opts st
    | jsString s => exact setCommandsList_commands_nil opts st
    | jsNumber n => exact setCommandsList_commands_nil opts st
    | jsObject => exact setCommandsList_commands_nil opts st
  · intro hsort l
    exact setCommandsList_commands_of_none opts st l hsort

/-- Witness for C10 at concrete arguments. -/
theorem setCommands_spec_witness :
    (setCommands {} {} .jsNull).commands = []
    ∧ (setCommands {} {} (.jsArray [{ title := ['a'] }])).commands = [{ title := ['a'] }] :=
  ⟨(setCommands_spec {} {}).1 .jsNull rfl,
    (setCommands_spec {} {}).2 rfl [{ title := ['a'] }]⟩

/-- C5 — `Palette.add(cmd)` (with no `initialSortFunc` configured, so
`setCommands` preserves order): when `cmd` declares a truthy id that the
`findIdx?` lookup (`dupIdx`) locates at position `j`, the entry is replaced
in place at `j` and the length is unchanged; when the lookup fails — the id
matches no existing entry, or the entry has no id (absent or the falsy empty
string) — the entry is appended and the length grows by exactly one.  An
id-less entry always takes the append branch (`dupIdx` is `none` without
consulting `commands`), so id-less entries are never deduplicated. -/
theorem add_spec (opts : Options) (st : PaletteState) (cmd : Entry)
    (hsort : opts.initialSortFunc = none) :
    (∀ j, dupIdx st cmd = some j →
      (add opts st cmd).commands = st.commands.set j cmd
        ∧ (add opts st cmd).commands.length = st.commands.length)
    ∧ (dupIdx st cmd = none →
      (add opts st cmd).commands = st.commands ++ [cmd]
        ∧ (add opts st cmd).commands.length = st.commands.length + 1)
    ∧ (cmd.id = none → dupIdx st cmd = none)
    ∧ (∀ s, cmd.id = some s → s ≠ [] →
      dupIdx st cmd = st.commands.findIdx? fun obj => decide (obj.id = some s)) := by
  refine ⟨fun j hj => ?_, fun hn => ?_, fun hid => ?_, fun s hs hne => ?_⟩
  · have hc : (add opts st cmd).commands = st.commands.set j cmd := by
      unfold add
      rw [hj]
      exact setCommandsList_commands_of_none opts st _ hsort
    exact ⟨hc, by rw [hc, List.length_set]⟩
  · have hc : (add opts st cmd).commands = st.commands ++ [cmd] := by
      unfold add
      rw [hn]
      exact setCommandsList_commands_of_none opts st _ hsort
    exact ⟨hc, by simp [hc]⟩
  · unfold dupIdx
    rw [hid]
  · unfold dupIdx
    rw [hs]
    simp [hne]

/-- Witness for C5: replacing at a duplicate id keeps the length, and adding
an id-less entry appends. -/
theorem add_spec_witness :
    (add {} { commands := [{ id := some ['x'], title := ['a'] }, { title := ['c'] }] }
        { id := some ['x'], title := ['b'] }).commands
      = [{ id := some ['x'], title := ['b'] }, { title := ['c'] }]
    ∧ (add {} { commands := [{ title := ['a'] }] } { title := ['a'] }).commands
      = [{ title := ['a'] }, { title := ['a'] }] :=
  ⟨((add_spec {} { commands := [{ id := some ['x'], title := ['a'] }, { title := ['c'] }] }
      { id := some ['x'], title := ['b'] } rfl).1 0 (by decide)).1,
    ((add_spec {} { commands := [{ title := ['a'] }] } { title := ['a'] } rfl).2.1
      (by decide)).1⟩

/-- C6 — `Palette.remove(identifier)` accepts a numeric index, an id
string, or an entry reference (whose id is consulted): an index outside
`[0, len-1]` or an id matching no entry is a silent no-op leaving the whole
state (in particular `commands`) unchanged — `remove` is total, nothing is
thrown; an in-range index, or an id found at the first matching position
`i`, removes exactly that entry (with no `initialSortFunc`, so `setCommands`
preserves order). -/
theorem remove_spec (opts : Options) (st : PaletteState) :
    (∀ idx : Int, idx < 0 ∨ (st.commands.length : Int) ≤ idx →
      remove opts st (.byIndex idx) = st)
    ∧ (∀ s, s ≠ [] →
      (st.commands.findIdx? fun obj => decide (obj.id = some s)) = none →
      remove opts st (.byId s) = st)
    ∧ (opts.initialSortFunc = none → ∀ idx : Int, 0 ≤ idx →
      idx < (st.commands.length : Int) →
      (remove opts st (.byIndex idx)).commands = st.commands.eraseIdx idx.toNat)
    ∧ (opts.initialSortFunc = none → ∀ s i, s ≠ [] →
      (st.commands.findIdx? fun obj => decide (obj.id = some s)) = some i →
      (remove opts st (.byId s)).commands = st.commands.eraseIdx i)
    ∧ (∀ e s, e.id = some s → remove opts st (.byEntry e) = remove opts st (.byId s))
    ∧ (∀ e, e.id = none → remove opts st (.byEntry e) = st) := by
  refine ⟨fun idx hout => ?_, fun s hs hnone => ?_, fun hsort idx h0 hlt => ?_,
    fun hsort s i hs hsome => ?_, fun e s he => ?_, fun e he => ?_⟩
  · simp only [remove]
    rw [if_pos hout]
  · simp only [remove, removeById]
    rw [if_neg hs, hnone]
  · simp only [remove]
    rw [if_neg (by omega : ¬(idx < 0 ∨ (st.commands.length : Int) ≤ idx))]
    exact setCommandsList_commands_of_none opts st _ hsort
  · simp only [remove, removeById]
    rw [if_neg hs, hsome]
    exact setCommandsList_commands_of_none opts st _ hsort
  · simp only [remove]
    rw [he]
  · simp only [remove]
    rw [he]

/-- Witness for C6: out-of-range index and unknown id are no-ops; an
in-range index and a present id remove the matching entry. -/
theorem remove_spec_witness :
    remove {} { commands := [{ title := ['a'] }] } (.byIndex 5)
      = { commands := [{ title := ['a'] }] }
    ∧ remove {} { commands := [{ title := ['a'] }] } (.byId ['z'])
      = { commands := [{ title := ['a'] }] }
    ∧ (remove {} { commands := [{ title := ['a'] }, { title := ['b'] }] } (.byIndex 1)).commands
      = [{ title := ['a'] }]
    ∧ (remove {} { commands := [{ id := some ['x'], title := ['a'] }, { title := ['b'] }] }
        (.byId ['x'])).commands = [{ title := ['b'] }] :=
  ⟨(remove_spec {} { commands := [{ title := ['a'] }] }).1 5 (by decide),
    (remove_spec {} { commands := [{ title := ['a'] }] }).2.1 ['z'] (by decide) (by decide),
    (remove_spec {} { commands := [{ title := ['a'] }, { title := ['b'] }] }).2.2.1
      rfl 1 (by decide) (by decide),
    (remove_spec {} { commands := [{ id := some ['x'], title := ['a'] }, { title := ['b'] }] }).2.2.2.1
      rfl ['x'] 0 (by decide) (by decide)⟩

theorem lexLE_total : ∀ s t : Str, lexLE s t = true ∨ lexLE t s = true
  | [], _ => Or.inl rfl
  | _ :: _, [] => Or.inr rfl
  | a :: as, b :: bs => by
    by_cases hab : a = b
    · subst hab
      rcases lexLE_total as bs with h | h
      · left; rw [lexLE, if_pos rfl]; exact h
      · right; rw [lexLE, if_pos rfl]; exact h
    · rcases lt_or_gt_of_ne hab with h | h
      · left; rw [lexLE, if_neg hab]; exact decide_eq_true h
      · right; rw [lexLE, if_neg (Ne.symm hab)]; exact decide_eq_true h

theorem lexLE_trans : ∀ s t u : Str, lexLE s t = true → lexLE t u = true → lexLE s u = true
  | [], _, _, _, _ => rfl
  | _ :: _, [], _, h1, _ => by rw [lexLE] at h1; exact absurd h1 (by simp)
  | _ :: _, _ :: _, [], _, h2 => by rw [lexLE] at h2; exact absurd h2 (by simp)
  | a :: as, b :: bs, c :: cs, h1, h2 => by
    by_cases hab : a = b <;> by_cases hbc : b = c
    · subst hab; subst hbc
      rw [lexLE, if_pos rfl] at h1 h2 ⊢
      exact lexLE_trans as bs cs h1 h2
    · subst hab
      rw [lexLE, if_neg hbc] at h2 ⊢
      exact h2
    · subst hbc
      rw [lexLE, if_neg hab] at h1 ⊢
      exact h1
    · rw [lexLE, if_neg hab] at h1
      rw [lexLE, if_neg hbc] at h2
      have hac : a < c := lt_trans (of_decide_eq_true h1) (of_decide_eq_true h2)
      rw [lexLE, if_neg (ne_of_lt hac)]
      exact decide_eq_true hac

theorem scoredLE_total (x y : Entry × Nat) : scoredLE x y = true ∨ scoredLE y x = true := by
  simp only [scoredLE, Bool.or_eq_true, Bool.and_eq_true, decide_eq_true_eq, beq_iff_eq]
  rcases Nat.lt_trichotomy x.2 y.2 with h | h | h
  · right; left; exact h
  · rcases lexLE_total x.1.title y.1.title with hl | hl
    · left; right; exact ⟨h, hl⟩
    · right; right; exact ⟨h.symm, hl⟩
  · left; left; exact h

theorem scoredLE_trans (x y z : Entry × Nat) (h1 : scoredLE x y = true)
    (h2 : scoredLE y z = true) : scoredLE x z = true := by
  simp only [scoredLE, Bool.or_eq_true, Bool.and_eq_true, decide_eq_true_eq,
    beq_iff_eq] at h1 h2 ⊢
  rcases h1 with h1 | ⟨h1e, h1l⟩ <;> rcases h2 with h2 | ⟨h2e, h2l⟩
  · left; omega
  · left; omega
  · left; omega
  · right; exact ⟨by omega, lexLE_trans _ _ _ h1l h2l⟩

theorem stableSortB_perm (le : α → α → Bool) (l : List α) :
    (stableSortB le l).Perm l :=
  List.perm_insertionSort _ l

theorem pairwise_stableSortB (le : α → α → Bool)
    (htrans : ∀ a b c, le a b = true → le b c = true → le a c = true)
    (htot : ∀ a b, le a b = true ∨ le b a = true) (l : List α) :
    (stableSortB le l).Pairwise fun a b => le a b = true := by
  have _i1 : IsTotal α fun a b => le a b = true := ⟨htot⟩
  have _i2 : IsTrans α fun a b => le a b = true := ⟨htrans⟩
  exact List.sorted_insertionSort _ l

theorem filterCommands_nil (opts : Options) (commands : List Entry) :
    filterCommands opts commands [] = commands := by
  unfold filterCommands
  rw [if_pos rfl]

theorem onQueryChange_filtered (opts : Options) (st : PaletteState) :
    (onQueryChange opts st).filtered
      = if opts.minQueryLength ≤ (trim st.query).length then
          filterCommands opts st.commands (trim st.query)
        else st.commands := rfl

/-- Content and order of `_filterCommands` on a nonempty (trimmed) query:
the result is a permutation of the positively-scored entries, sorted by
descending score with ties broken by ascending case-sensitive lexicographic
title order. -/
theorem filterCommands_spec (opts : Options) (commands : List Entry) (q : Str)
    (hq : q ≠ []) :
    (filterCommands opts commands q).Perm
        (commands.filter fun c => decide (0 < scoreOf opts.fuzzy (toLowerStr q) c))
    ∧ (filterCommands opts commands q).Pairwise fun a b =>
        scoreOf opts.fuzzy (toLowerStr q) b < scoreOf opts.fuzzy (toLowerStr q) a
        ∨ (scoreOf opts.fuzzy (toLowerStr q) a = scoreOf opts.fuzzy (toLowerStr q) b
            ∧ lexLE a.title b.title = true) := by
  have heq : filterCommands opts commands q
      = (stableSortB scoredLE
          ((commands.map fun cmd => (cmd, scoreOf opts.fuzzy (toLowerStr q) cmd)).filter
            fun x => decide (0 < x.2))).map Prod.fst := by
    unfold filterCommands
    rw [if_neg hq]
  have hproj : ((commands.map fun cmd => (cmd, scoreOf opts.fuzzy (toLowerStr q) cmd)).filter
        fun x => decide (0 < x.2)).map Prod.fst
      = commands.filter fun c => decide (0 < scoreOf opts.fuzzy (toLowerStr q) c) := by
    rw [List.filter_map, List.map_map]
    show List.map id _ = _
    rw [List.map_id]
    rfl
  have hwf : ∀ x ∈ stableSortB scoredLE
      ((commands.map fun cmd => (cmd, scoreOf opts.fuzzy (toLowerStr q) cmd)).filter
        fun x => decide (0 < x.2)),
      x.2 = scoreOf opts.fuzzy (toLowerStr q) x.1 := by
    intro x hx
    have hx1 : x ∈ (commands.map fun cmd =>
        (cmd, scoreOf opts.fuzzy (toLowerStr q) cmd)).filter fun x => decide (0 < x.2) :=
      (stableSortB_perm _ _).mem_iff.mp hx
    have hx2 := (List.mem_filter.mp hx1).1
    obtain ⟨c, _, hc⟩ := List.mem_map.mp hx2
    rw [← hc]
  constructor
  · rw [heq, ← hproj]
    exact ((stableSortB_perm scoredLE _).map Prod.fst)
  · rw [heq]
    apply List.pairwise_map.mpr
    apply List.Pairwise.imp_of_mem ?_
      (pairwise_stableSortB scoredLE scoredLE_trans scoredLE_total _)
    intro x y hx hy hle
    simp only [scoredLE, Bool.or_eq_true, Bool.and_eq_true, decide_eq_true_eq,
      beq_iff_eq] at hle
    rw [hwf x hx, hwf y hy] at hle
    exact hle

/-- C1 — the filter pipeline of `_onQueryChange`/`_filterCommands`: when
the trimmed query is empty or shorter than `minQueryLength`, `filtered` is
the command list verbatim in original order; otherwise `filtered` consists
exactly of the entries with strictly positive score (the sum of +100 for a
case-insensitively equal title, +75 for a title starting with the query,
+50 for a title containing it, +30 for a subtitle containing it, and +10
for a fuzzy subsequence match in the title when `fuzzy` is enabled — all
comparisons on the lowercased strings, per `scoreOf`), sorted descending by
score with ties broken by ascending case-sensitive lexicographic title
order. -/
theorem filter_spec (opts : Options) (st : PaletteState) :
    ((trim st.query = [] ∨ (trim st.query).length < opts.minQueryLength) →
      (onQueryChange opts st).filtered = st.commands)
    ∧ ((trim st.query ≠ [] ∧ opts.minQueryLength ≤ (trim st.query).length) →
      (onQueryChange opts st).filtered.Perm
          (st.commands.filter fun c =>
            decide (0 < scoreOf opts.fuzzy (toLowerStr (trim st.query)) c))
        ∧ (onQueryChange opts st).filtered.Pairwise fun a b =>
            scoreOf opts.fuzzy (toLowerStr (trim st.query)) b
                < scoreOf opts.fuzzy (toLowerStr (trim st.query)) a
              ∨ (scoreOf opts.fuzzy (toLowerStr (trim st.query)) a
                  = scoreOf opts.fuzzy (toLowerStr (trim st.query)) b
                ∧ lexLE a.title b.title = true)) := by
  constructor
  · intro h
    rw [onQueryChange_filtered]
    rcases h with hq | hlen
    · rw [hq]
      split
      · exact filterCommands_nil opts st.commands
      · rfl
    · rw [if_neg (by omega)]
  · intro ⟨hne, hge⟩
    rw [onQueryChange_filtered, if_pos hge]
    exact filterCommands_spec opts st.commands (trim st.query) hne

/-- Witness for C1: a too-short query leaves the list verbatim; the query
`"tab"` on `["Open Tab", "Close Tab", "New Window"]` keeps exactly the two
positively-scored entries, sorted (tie broken alphabetically). -/
theorem filter_spec_witness :
    (onQueryChange { minQueryLength := 2 }
        { commands := [{ title := ['a'] }], query := ['t'] }).filtered
      = [{ title := ['a'] }]
    ∧ ((onQueryChange {} { commands := [{ title := "Open Tab".toList }, { title := "Close Tab".toList }, { title := "New Window".toList }], query := "tab".toList }).filtered.Perm
          ([{ title := "Open Tab".toList }, { title := "Close Tab".toList }, { title := "New Window".toList }].filter fun c =>
            decide (0 < scoreOf true (toLowerStr (trim "tab".toList)) c))
        ∧ (onQueryChange {} { commands := [{ title := "Open Tab".toList }, { title := "Close Tab".toList }, { title := "New Window".toList }], query := "tab".toList }).filtered.Pairwise fun a b =>
            scoreOf true (toLowerStr (trim "tab".toList)) b
                < scoreOf true (toLowerStr (trim "tab".toList)) a
              ∨ (scoreOf true (toLowerStr (trim "tab".toList)) a
                  = scoreOf true (toLowerStr (trim "tab".toList)) b
                ∧ lexLE a.title b.title = true)) :=
  ⟨(filter_spec { minQueryLength := 2 }
      { commands := [{ title := ['a'] }], query := ['t'] }).1 (Or.inr (by decide)),
    (filter_spec {} { commands := [{ title := "Open Tab".toList }, { title := "Close Tab".toList }, { title := "New Window".toList }], query := "tab".toList }).2
      ⟨by decide, by decide⟩⟩

theorem isPrefixOfB_refl_append : ∀ (x r : Str), isPrefixOfB x (x ++ r) = true
  | [], _ => rfl
  | a :: as, r => by
    have ih := isPrefixOfB_refl_append as r
    simp only [List.cons_append, isPrefixOfB, beq_self_eq_true, Bool.true_and]
    exact ih

theorem isPrefixOfB_openTag_head_ne {c : Char} (r : Str) (h : c ≠ '<') :
    isPrefixOfB openTag (c :: r) = false := by
  rw [show openTag = '<' :: List.drop 1 openTag from by decide]
  simp only [isPrefixOfB, Bool.and_eq_false_imp]
  intro hb
  exact absurd (beq_iff_eq.mp hb).symm h

theorem isPrefixOfB_closeTag_head_ne {c : Char} (r : Str) (h : c ≠ '<') :
    isPrefixOfB closeTag (c :: r) = false := by
  rw [show closeTag = '<' :: List.drop 1 closeTag from by decide]
  simp only [isPrefixOfB, Bool.and_eq_false_imp]
  intro hb
  exact absurd (beq_iff_eq.mp hb).symm h

theorem isPrefixOfB_openTag_closeTag_append (r : Str) :
    isPrefixOfB openTag (closeTag ++ r) = false := by
  rw [show openTag = '<' :: 's' :: List.drop 2 openTag from by decide,
    show closeTag = '<' :: '/' :: List.drop 2 closeTag from by decide]
  simp only [List.cons_append, isPrefixOfB]
  rw [show (('s' : Char) == '/') = false from rfl]
  simp

/-- The cons-step unfolding of `stripTags`. -/
theorem stripTags_cons (c : Char) (rest : Str) :
    stripTags (c :: rest)
      = if isPrefixOfB openTag (c :: rest) then
          stripTags ((c :: rest).drop openTag.length)
        else if isPrefixOfB closeTag (c :: rest) then
          stripTags ((c :: rest).drop closeTag.length)
        else c :: stripTags rest := by
  simp only [stripTags]

theorem stripTags_nil : stripTags [] = [] := by
  simp only [stripTags]

theorem stripTags_cons_of_ne (c : Char) (r : Str) (h : c ≠ '<') :
    stripTags (c :: r) = c :: stripTags r := by
  rw [stripTags_cons, isPrefixOfB_openTag_head_ne r h, isPrefixOfB_closeTag_head_ne r h]
  simp

theorem stripTags_openTag_append (r : Str) : stripTags (openTag ++ r) = stripTags r := by
  conv_lhs => rw [show openTag = '<' :: List.drop 1 openTag from by decide,
    List.cons_append]
  rw [stripTags_cons, ← List.cons_append,
    ← show openTag = '<' :: List.drop 1 openTag from by decide,
    if_pos (isPrefixOfB_refl_append openTag r), List.drop_left]

theorem stripTags_closeTag_append (r : Str) : stripTags (closeTag ++ r) = stripTags r := by
  conv_lhs => rw [show closeTag = '<' :: List.drop 1 closeTag from by decide,
    List.cons_append]
  rw [stripTags_cons, ← List.cons_append,
    ← show closeTag = '<' :: List.drop 1 closeTag from by decide,
    isPrefixOfB_openTag_closeTag_append r,
    if_pos (isPrefixOfB_refl_append closeTag r), List.drop_left]
  simp

theorem stripTags_no_lt_append (x r : Str) (h : ∀ c ∈ x, c ≠ '<') :
    stripTags (x ++ r) = x ++ stripTags r := by
  induction x with
  | nil => rfl
  | cons c xs ih =>
    rw [List.cons_append, stripTags_cons_of_ne c _ (h c (List.mem_cons_self c xs)),
      ih fun d hd => h d (List.mem_cons_of_mem c hd), List.cons_append]

theorem escChar_no_lt (c : Char) : ∀ d ∈ escChar c, d ≠ '<' := by
  intro d hd
  unfold escChar at hd
  split_ifs at hd with h1 h2 h3 h4 h5
  · exact (by decide : ∀ d ∈ "&amp;".toList, d ≠ '<') d hd
  · exact (by decide : ∀ d ∈ "&lt;".toList, d ≠ '<') d hd
  · exact (by decide : ∀ d ∈ "&gt;".toList, d ≠ '<') d hd
  · exact (by decide : ∀ d ∈ "&quot;".toList, d ≠ '<') d hd
  · exact (by decide : ∀ d ∈ "&#39;".toList, d ≠ '<') d hd
  · rw [List.mem_singleton] at hd
    subst hd
    exact h2

theorem escapeHtml_no_lt (s : Str) : ∀ d ∈ escapeHtml s, d ≠ '<' := by
  intro d hd
  obtain ⟨c, _, hdc⟩ := List.mem_flatMap.mp hd
  exact escChar_no_lt c d hdc

theorem stripTags_escapeHtml_append (s r : Str) :
    stripTags (escapeHtml s ++ r) = escapeHtml s ++ stripTags r :=
  stripTags_no_lt_append _ r (escapeHtml_no_lt s)

theorem stripTags_escapeHtml (s : Str) : stripTags (escapeHtml s) = escapeHtml s := by
  rw [← List.append_nil (escapeHtml s), stripTags_escapeHtml_append, stripTags_nil]

theorem escapeHtml_append (x y : Str) :
    escapeHtml (x ++ y) = escapeHtml x ++ escapeHtml y :=
  List.flatMap_append x y escChar

theorem stripTags_fuzzyHighlight : ∀ (t q : Str),
    stripTags (fuzzyHighlight q t) = escapeHtml t
  | [], q => by
    cases q <;> (show stripTags [] = escapeHtml []; rw [stripTags_nil]; rfl)
  | c :: rest, [] => by
    show stripTags (escChar c ++ fuzzyHighlight [] rest) = escapeHtml (c :: rest)
    rw [stripTags_no_lt_append _ _ (escChar_no_lt c), stripTags_fuzzyHighlight rest []]
    rfl
  | c :: rest, q0 :: qs => by
    simp only [fuzzyHighlight]
    split
    · rw [List.append_assoc, List.append_assoc, stripTags_openTag_append,
        stripTags_no_lt_append _ _ (escChar_no_lt c), stripTags_closeTag_append,
        stripTags_fuzzyHighlight rest qs]
      rfl
    · rw [stripTags_no_lt_append _ _ (escChar_no_lt c),
        stripTags_fuzzyHighlight rest (q0 :: qs)]
      rfl

theorem take_drop_recompose (pos n : Nat) (text : Str) :
    text.take pos ++ ((text.drop pos).take n ++ text.drop (pos + n)) = text := by
  conv_rhs => rw [← List.take_append_drop pos text]
  congr 1
  conv_rhs => rw [← List.take_append_drop n (text.drop pos)]
  congr 1
  rw [List.drop_drop]

/-- C7 — `Palette._highlight` never throws (it is a total function of
its inputs) and escapes every HTML-special character of the input: removing
the highlight markers (`stripTags`) from its result yields exactly
`_escapeHtml` of the original text — in the disabled/empty-query branches,
in the first-substring branch (before/match/after escaped independently),
and in the fuzzy fallback walk; and when highlighting is disabled the
result is the escaped text with no markup at all. -/
theorem highlight_spec (opts : Options) (text query : Str) :
    (opts.highlight = false → highlight opts text query = escapeHtml text)
    ∧ stripTags (highlight opts text query) = escapeHtml text := by
  constructor
  · intro h
    unfold highlight
    rw [if_pos h]
  · by_cases h1 : opts.highlight = false
    · unfold highlight
      rw [if_pos h1]
      exact stripTags_escapeHtml text
    · by_cases h2 : query = []
      · unfold highlight
        rw [if_neg h1, if_pos h2]
        exact stripTags_escapeHtml text
      · by_cases h3 : toLowerStr (trim query) = []
        · unfold highlight
          rw [if_neg h1, if_neg h2]
          dsimp only
          rw [if_pos h3]
          exact stripTags_escapeHtml text
        · unfold highlight
          rw [if_neg h1, if_neg h2]
          dsimp only
          rw [if_neg h3]
          cases hidx : indexOfSub (toLowerStr text) (toLowerStr (trim query)) with
          | none =>
            exact stripTags_fuzzyHighlight text (toLowerStr (trim query))
          | some pos =>
            dsimp only
            rw [List.append_assoc, List.append_assoc, List.append_assoc,
              stripTags_escapeHtml_append, stripTags_openTag_append,
              stripTags_escapeHtml_append, stripTags_closeTag_append,
              stripTags_escapeHtml, ← escapeHtml_append, ← escapeHtml_append,
              take_drop_recompose]

/-- Witness for C7: disabled highlighting returns the escaped text, and on
input containing HTML-special characters the unmarked reconstruction equals
the escaped original. -/
theorem highlight_spec_witness :
    highlight { highlight := false } ['a', '<', 'b'] ['b'] = escapeHtml ['a', '<', 'b']
    ∧ stripTags (highlight {} ['a', '<', 'b'] ['b']) = escapeHtml ['a', '<', 'b'] :=
  ⟨(highlight_spec { highlight := false } ['a', '<', 'b'] ['b']).1 rfl,
    (highlight_spec {} ['a', '<', 'b'] ['b']).2⟩

/-- C8, counterexample — a palette populated `OnShow` whose entry source
rejects: the rejection propagates out of `show`'s returned promise
(`propagated = some 7`), nothing inside the palette catches or logs it; the
same for the fire-and-forget `OnInit` population in `init`.  This refutes
the claim that the palette catches the failure and that it never
propagates. -/
theorem populate_failure_counterexample :
    (showPalette { populateBehavior := [.OnShow] } {} true [] (.err 7) (.err 7) []).propagated
      = some 7
    ∧ (init { populateBehavior := [.OnInit] } {} (.err 5)).unhandled = some 5 := by decide

/-- C8, amended — when a populate call rejects during `show` (either the
`OnFirstShow` call on a first show, or the `OnShow` call) or during `init`
(`OnInit`), the command list is left unchanged at its previous value and
the dialog is not opened, but the palette does not catch or log the
failure: the rejection propagates out of `show` (for `init` it is an
unhandled rejection of the internal async call).  On the first-show path
`ranOnce` has already been flipped to `true` before the failing `await`. -/
theorem populate_failure_spec (opts : Options) (st : PaletteState) (host prefill : Str) :
    (∀ e o2, st.ranOnce = false → PopulateTrigger.OnFirstShow ∈ opts.populateBehavior →
      hostBlocked opts host = false →
      showPalette opts st true host (.err e) o2 prefill
        = ⟨{ st with ranOnce := true }, false, some e⟩)
    ∧ (∀ e o1, st.ranOnce = true → PopulateTrigger.OnShow ∈ opts.populateBehavior →
      hostBlocked opts host = false →
      showPalette opts st true host o1 (.err e) prefill = ⟨st, false, some e⟩)
    ∧ (∀ e, PopulateTrigger.OnInit ∈ opts.populateBehavior →
      init opts st (.err e) = ⟨st, some e⟩) := by
  refine ⟨fun e o2 hr hb hh => ?_, fun e o1 hr hb hh => ?_, fun e hb => ?_⟩
  · unfold showPalette
    rw [if_neg (by simp), if_neg (by simp [hh]), if_pos hr, if_pos hb]
  · unfold showPalette showStep2
    rw [if_neg (by simp), if_neg (by simp [hh]), if_neg (by simp [hr]), if_pos hb]
  · unfold init
    rw [if_pos hb]

/-- Witness for C8 (amended) at concrete configurations covering all three
failing populate paths. -/
theorem populate_failure_spec_witness :
    showPalette { populateBehavior := [.OnFirstShow] } {} true [] (.err 3) (.ok []) []
      = ⟨{ ranOnce := true }, false, some 3⟩
    ∧ showPalette { populateBehavior := [.OnShow] } { ranOnce := true } true [] (.ok []) (.err 4) []
      = ⟨{ ranOnce := true }, false, some 4⟩
    ∧ init { populateBehavior := [.OnInit] } {} (.err 5) = ⟨{}, some 5⟩ :=
  ⟨(populate_failure_spec { populateBehavior := [.OnFirstShow] } {} [] []).1
      3 (.ok []) rfl (by decide) rfl,
    (populate_failure_spec { populateBehavior := [.OnShow] } { ranOnce := true } [] []).2.1
      4 (.ok []) rfl (by decide) rfl,
    (populate_failure_spec { populateBehavior := [.OnInit] } {} [] []).2.2 5 (by decide)⟩

end Palette
